import Mathlib

/-!
Shallow embedding of the durability / iteration core of the hse-mongo
storage-engine adapter, together with theorems settling the frozen claims.

Modelled source files:
- src/mongo/db/storage/hse/src/hse.h                      (KVDBData buffers)
- src/mongo/db/storage/hse/src/hse_durability_manager.cpp (KVDBDurabilityManager, KVDBJournalFlusher)
- src/mongo/db/storage/hse/src/hse_kvscursor.cpp          (KvsCursor)
- src/mongo/db/storage/hse/src/hse_record_store_mongod.cpp (KVDBEngine::initOplogStoreThread)

Machine integers (unsigned long, int64_t) are embedded as Nat / Int with
explicit reduction modulo 2 ^ 64 where the C code can wrap.
-/

namespace Hse

/-- Word size of unsigned long on the target platform. -/
def U64 : Nat := 2 ^ 64

/-- Unsigned subtraction modulo 2 ^ 64, for operands below 2 ^ 64
(the C expressions computed on unsigned long, such as capacity - length). -/
def usub (a b : Nat) : Nat := (U64 + a - b) % U64

/-- hse::Status from hse.h: wraps an errno-style error number, 0 meaning success. -/
structure Status where
  errno : Nat
deriving DecidableEq, Repr

/-- Status::ok(): true exactly when the wrapped error number is 0. -/
def Status.ok (s : Status) : Bool := s.errno == 0

/-- errno value EMSGSIZE returned by KVDBData::copy on capacity overflow. -/
def EMSGSIZE : Nat := 90

/-- A byte region: C memory modelled as a list of byte values. -/
abbrev Bytes := List Nat

/-- memcpy(dst + off, src, src.length) on a region: overwrite src.length bytes
of dst starting at offset off. -/
def memWrite (dst : Bytes) (off : Nat) (src : Bytes) : Bytes :=
  dst.take off ++ src ++ dst.drop (off + src.length)

/-- hse::KVDBData from hse.h.  Field-for-field embedding:
data/bufLen model the borrowed pointer _data and its region length _bufLen,
len is _len, owned is _owned, ownedData models the bytes behind the
shared_ptr _ownedData, allocLen is _allocLen.  ownedId is the identity of the
heap allocation held by _ownedData (two buffers share backing memory exactly
when both are owned and their ownedId coincide); a plain C++ copy preserves
it because the copy constructor copies the shared_ptr. -/
structure KVDBData where
  data : Bytes := []
  bufLen : Nat := 0
  len : Nat := 0
  owned : Bool := false
  ownedData : Bytes := []
  ownedId : Nat := 0
  allocLen : Nat := 0
deriving DecidableEq, Repr

/-- The capacity relevant to writes: _allocLen for owned buffers,
_bufLen for borrowed ones (this is what KVDBData::copy checks against). -/
def KVDBData.capacity (b : KVDBData) : Nat :=
  if b.owned then b.allocLen else b.bufLen

/-- The bytes the buffer's data() pointer designates. -/
def KVDBData.contents (b : KVDBData) : Bytes :=
  if b.owned then b.ownedData else b.data

/-- The valid bytes of the buffer: the first _len bytes behind data(). -/
def KVDBData.validBytes (b : KVDBData) : Bytes :=
  b.contents.take b.len

/-- The spec's buffer invariant: length never exceeds capacity. -/
def KVDBData.lenInv (b : KVDBData) : Prop :=
  b.len ≤ b.capacity

instance (b : KVDBData) : Decidable b.lenInv := by
  unfold KVDBData.lenInv; infer_instance

/-- Heap representation well-formedness: the modelled region really has the
recorded capacity, and the unsigned-long fields are in range. -/
def KVDBData.wf (b : KVDBData) : Prop :=
  b.contents.length = b.capacity ∧ b.capacity < U64 ∧ b.len < U64

/-- KVDBData::adjustLen: _len = _len + copied (unsigned long arithmetic). -/
def KVDBData.adjustLen (b : KVDBData) (copied : Nat) : KVDBData :=
  { b with len := (b.len + copied) % U64 }

/-- KVDBData::copy (the append operation): bounds-check against remaining
capacity, memcpy at offset _len, adjustLen on success; EMSGSIZE otherwise. -/
def KVDBData.copy (b : KVDBData) (src : Bytes) (n : Nat) : Status × KVDBData :=
  if b.owned = true ∧ n ≤ usub b.allocLen b.len then
    (⟨0⟩, ({ b with ownedData := memWrite b.ownedData b.len (src.take n) }).adjustLen n)
  else if b.owned = false ∧ n ≤ usub b.bufLen b.len then
    (⟨0⟩, ({ b with data := memWrite b.data b.len (src.take n) }).adjustLen n)
  else
    (⟨EMSGSIZE⟩, b)

/-- KVDBData::makeOwned: when not owned, allocate _bufLen fresh bytes,
memcpy the first _len bytes of _data into them, set _allocLen = _bufLen and
mark owned; when already owned, no change at all (same shared allocation).
freshId names the new allocation; uninitialised tail bytes are modelled as 0. -/
def KVDBData.makeOwned (b : KVDBData) (freshId : Nat) : KVDBData :=
  if b.owned then b
  else { b with
         ownedData := b.data.take b.len ++ List.replicate (b.bufLen - b.len) 0,
         allocLen := b.bufLen,
         ownedId := freshId,
         owned := true }

/-- KVDBData::clone: KVDBData(*this).makeOwned() — copy (sharing _ownedData)
then makeOwned on the copy. -/
def KVDBData.clone (b : KVDBData) (freshId : Nat) : KVDBData :=
  b.makeOwned freshId

/-- KVDBData::createOwned(len): fresh allocation of len bytes, _allocLen = len,
owned, _len = 0.  _data and _bufLen are left untouched, as in the source. -/
def KVDBData.createOwned (b : KVDBData) (l : Nat) (freshId : Nat) : KVDBData :=
  { b with ownedData := List.replicate l 0, allocLen := l, ownedId := freshId,
           owned := true, len := 0 }

/-- KVDBData::setReadBuf(buf, len): point at an external un-owned region. -/
def KVDBData.setReadBuf (b : KVDBData) (buf : Bytes) (l : Nat) : KVDBData :=
  { b with data := buf, bufLen := l, len := 0, owned := false, allocLen := l }

/-- KVDBData::destroy: drop the region and zero every field. -/
def KVDBData.destroy (_b : KVDBData) : KVDBData :=
  { data := [], bufLen := 0, len := 0, owned := false, ownedData := [],
    ownedId := 0, allocLen := 0 }

/-- strlen on a modelled C string region. -/
def cstrlen : Bytes → Nat
  | [] => 0
  | byte :: rest => if byte = 0 then 0 else cstrlen rest + 1

/-- KVDBData(): the default constructor, every field default-initialised. -/
def KVDBData.mkDefault : KVDBData := {}

/-- KVDBData(uint8_t* cStr): borrow the region, _len = strlen(cStr) + 1.
Note the source never sets _bufLen here, so it stays 0. -/
def KVDBData.fromCString (region : Bytes) : KVDBData :=
  { data := region, len := cstrlen region + 1 }

/-- KVDBData(uint8_t* str, unsigned long l): borrow, _bufLen = _len = l. -/
def KVDBData.fromRegion (region : Bytes) (l : Nat) : KVDBData :=
  { data := region, bufLen := l, len := l }

/-- KVDBData(const string& s): borrow the string storage, _bufLen = _len = size. -/
def KVDBData.fromString (s : Bytes) : KVDBData :=
  { data := s, bufLen := s.length, len := s.length }

/-- KVDBData(uint8_t* mem, unsigned long len, bool owned): either
createOwned(len) followed by a memcpy of len bytes, or a plain borrow. -/
def KVDBData.fromMem (region : Bytes) (l : Nat) (owned : Bool) (freshId : Nat) :
    KVDBData :=
  if owned then
    let b := KVDBData.mkDefault.createOwned l freshId
    { b with ownedData := memWrite b.ownedData 0 (region.take l), len := l }
  else
    { data := region, bufLen := l, len := l }

/-! ## DurabilityManager (hse_durability_manager.cpp) -/

/-- Events observable during one KVDBDurabilityManager::sync() call, in the
order the call performs them. -/
inductive SyncEv
  | getToken
  | readBoundary (b : Int)
  | flushCall
  | flushFatal
  | durableCallback (b : Int)
  | bumpSyncs
  | notifyWaiters
  | onDurable
deriving DecidableEq, Repr

/-- How a sync() invocation ends: a normal return to the caller, or a
process abort raised by invariantHseSt on a failed kvdb_sync. -/
inductive SyncExit
  | returned
  | aborted
deriving DecidableEq, Repr

/-- KVDBDurabilityManager state: _numSyncs (int64_t), _durable,
_shuttingDown, and whether _oplogVisibilityManager is non-null. -/
structure DMState where
  numSyncs : Int
  durable : Bool
  shuttingDown : Bool
  visSet : Bool
deriving DecidableEq, Repr

/-- The KVDBDurabilityManager constructor: _numSyncs(0), no visibility
manager, not shutting down; durability mode fixed at creation. -/
def dmInit (durable : Bool) : DMState :=
  { numSyncs := 0, durable := durable, shuttingDown := false, visSet := false }

/-- KVDBDurabilityManager::sync().  boundary is the value
_oplogVisibilityManager->getCommitBoundary() would return during this call,
flushStatus the result of _db.kvdb_sync().  Straight-line embedding of
lines 92-126: early return when not durable; getToken; read the commit
boundary (only when a visibility manager is registered); kvdb_sync checked
by invariantHseSt (abort on failure, before any callback); durableCallback
with the previously read boundary; _numSyncs++; notify waiters; onDurable. -/
def syncRun (st : DMState) (boundary : Int) (flushStatus : Status) :
    DMState × List SyncEv × SyncExit :=
  if st.durable = false then
    (st, [], .returned)
  else
    let evRead : List SyncEv := if st.visSet then [.readBoundary boundary] else []
    if flushStatus.ok = false then
      (st, .getToken :: evRead ++ [.flushCall, .flushFatal], .aborted)
    else
      let evCb : List SyncEv := if st.visSet then [.durableCallback boundary] else []
      ({ st with numSyncs := st.numSyncs + 1 },
       .getToken :: evRead ++ [.flushCall] ++ evCb ++
         [.bumpSyncs, .notifyWaiters, .onDurable],
       .returned)

/-- The value line 136 computes and waits against:
const auto waitFor = _numSyncs + 1. -/
def waitFor (entrySyncs : Int) : Int := entrySyncs + 1

/-- The condition-variable predicate of line 138:
_numSyncs > waitFor or _shuttingDown. -/
def syncWaitDone (wf numSyncs : Int) (shuttingDown : Bool) : Bool :=
  decide (numSyncs > wf) || shuttingDown

/-- waitUntilDurable modelled against a sequence of observations of
(_numSyncs, _shuttingDown) at condition-variable wakeups: index of the first
observation at which the wait predicate releases the caller. -/
def waitReturnIdx (wf : Int) : List (Int × Bool) → Option Nat
  | [] => none
  | (n, sd) :: rest =>
      if syncWaitDone wf n sd then some 0
      else (waitReturnIdx wf rest).map (· + 1)

/-- The public operations of KVDBDurabilityManager, with the environment
data each one consumes. -/
inductive DMOp
  | sync (boundary : Int) (flushStatus : Status)
  | waitUntilDurable
  | setJournalListener
  | setOplogVisibilityManager (set : Bool)
  | prepareForShutdown (boundary : Int) (flushStatus : Status)
deriving DecidableEq, Repr

/-- State transition of each operation.  waitUntilDurable and
setJournalListener do not touch _numSyncs; setOplogVisibilityManager swaps
the collaborator; prepareForShutdown performs one sync then sets
_shuttingDown. -/
def dmStep (st : DMState) : DMOp → DMState
  | .sync b fs => (syncRun st b fs).1
  | .waitUntilDurable => st
  | .setJournalListener => st
  | .setOplogVisibilityManager s => { st with visSet := s }
  | .prepareForShutdown b fs =>
      let st1 := (syncRun st b fs).1
      { st1 with shuttingDown := true }

/-- mongo ErrorCodes::ShutdownInProgress. -/
def shutdownInProgressCode : Nat := 91

/-- What the KVDBJournalFlusher worker does next after its
_durabilityManager.sync() call raised an exception: the catch clause at
lines 211-213 handles UserException via invariantHse(code == ShutdownInProgress)
(pass and continue the loop, or fatal assert); any other exception escapes
the catch and terminates the worker fatally. -/
inductive WorkerStep
  | continueRun
  | fatalAbort
deriving DecidableEq, Repr

/-- An exception raised by sync() as seen by the worker's try block. -/
inductive SyncException
  | userErr (code : Nat)
  | otherErr
deriving DecidableEq, Repr

/-- KVDBJournalFlusher::run's exception handling. -/
def flusherOnException : SyncException → WorkerStep
  | .userErr c => if c = shutdownInProgressCode then .continueRun else .fatalAbort
  | .otherErr => .fatalAbort

/-! ## Cursor creation retry loop (hse_kvscursor.cpp, _kvs_cursor_create) -/

/-- One response of hse_kvs_cursor_create: success, EAGAIN, or another error. -/
inductive CreateResp
  | ok
  | eagain
  | err
deriving DecidableEq, Repr

/-- Observable events of the retry loop: a sleep of a given number of
milliseconds, or the warning log line (tagged with the retries counter). -/
inductive CreateEv
  | sleep (ms : Nat)
  | warn (retries : Nat)
deriving DecidableEq, Repr

/-- How the loop ends: break on success, throw KVDBException on a
non-EAGAIN failure, or still running (the modelled response list ran out;
the source loop has no retry ceiling). -/
inductive CreateOutcome
  | created
  | threwNonEagain
  | stillLooping
deriving DecidableEq, Repr

/-- RETRY_FIB_SEQ_EAGAIN lookup of lines 85-88: entry k of {1,2,3,5,8,13}
while retries < FIB_LEN, then the last entry forever. -/
def fibSleep (k : Nat) : Nat :=
  if k < 6 then [1, 2, 3, 5, 8, 13].getD k 0 else 13

/-- The warning of lines 89-91 fires when retries ≥ FIB_LEN and
retries % 20 == 0. -/
def warnAt (k : Nat) : Bool :=
  decide (6 ≤ k) && decide (k % 20 = 0)

/-- The loop of _kvs_cursor_create, lines 84-108, driven by the list of
responses the store gives to successive hse_kvs_cursor_create attempts.
Each iteration: compute sleepTime and possibly warn, attempt, break on ok,
throw on non-EAGAIN, else sleep and increment retries. -/
def createLoop : List CreateResp → Nat → CreateOutcome × List CreateEv
  | [], _ => (.stillLooping, [])
  | r :: rest, k =>
      let evWarn : List CreateEv := if warnAt k then [.warn k] else []
      match r with
      | .ok => (.created, evWarn)
      | .err => (.threwNonEagain, evWarn)
      | .eagain =>
          let next := createLoop rest (k + 1)
          (next.1, evWarn ++ [.sleep (fibSleep k)] ++ next.2)

/-- The events produced by n consecutive EAGAIN iterations starting at
retries counter k. -/
def eagainEvs : Nat → Nat → List CreateEv
  | _, 0 => []
  | k, n + 1 =>
      (if warnAt k then [CreateEv.warn k] else []) ++
        [CreateEv.sleep (fibSleep k)] ++ eagainEvs (k + 1) n

/-- Projection keeping the sleep durations of an event list. -/
def sleepsOf (evs : List CreateEv) : List Nat :=
  evs.filterMap fun e => match e with | .sleep ms => some ms | _ => none

/-- Projection keeping the retry indices at which a warning was logged. -/
def warnsOf (evs : List CreateEv) : List Nat :=
  evs.filterMap fun e => match e with | .warn k => some k | _ => none

/-! ## Cursor iteration and resume (hse_kvscursor.cpp) -/

/-- A key: a byte string, ordered as HSE orders cursor keys. -/
abbrev Key := List Nat

/-- memcmp-style lexicographic strict order on byte strings: compare
byte-wise, a strict prefix sorts before its extensions. -/
def memLt : Key → Key → Bool
  | [], [] => false
  | [], _ :: _ => true
  | _ :: _, [] => false
  | a :: as, b :: bs =>
      if a < b then true else if b < a then false else memLt as bs

/-- Keys of a KVS scope in cursor order: pairwise adjacent strictly
increasing (hence sorted and duplicate-free). -/
def sortedKeys : List Key → Bool
  | [] => true
  | [_] => true
  | a :: b :: rest => memLt a b && sortedKeys (b :: rest)

/-- Index the native forward cursor seeks to for key k: the first index
whose key is not below k (list length when every key is below k). -/
def seekIdx : List Key → Key → Nat
  | [], _ => 0
  | x :: rest, k => if memLt x k then seekIdx rest k + 1 else 0

/-- A native HSE cursor over one scope: the ordered keys visible to it and
the position of the next key a read would return. -/
structure NativeCursor where
  keys : List Key
  pos : Nat
deriving DecidableEq, Repr

/-- hse_kvs_cursor_seek: position at the first key at or after k and
report the landed-on key (none at end of scope). -/
def nseek (c : NativeCursor) (k : Key) : NativeCursor × Option Key :=
  let i := seekIdx c.keys k
  ({ c with pos := i }, c.keys[i]?)

/-- hse_kvs_cursor_read: return the key under the cursor and advance;
none means eof. -/
def nread (c : NativeCursor) : NativeCursor × Option Key :=
  match c.keys[c.pos]? with
  | some k => ({ c with pos := c.pos + 1 }, some k)
  | none => (c, none)

/-- KvsCursor position-tracking state: the native cursor plus _kvs_key
(key of the last read, null when none) and _kvs_seek_key (key the last seek
landed on, null when the last operation was not a seek — _read_kvs clears it). -/
structure Cursor where
  nc : NativeCursor
  kvsKey : Option Key
  kvsSeekKey : Option Key
deriving DecidableEq, Repr

/-- KvsCursor::_read_kvs: clear _kvs_seek_key/_kvs_seek_klen, read the
native cursor; on a record, _kvs_key becomes that key. -/
def readKvs (c : Cursor) : Cursor × Option Key :=
  let next := nread c.nc
  ({ nc := next.1,
     kvsKey := match next.2 with | some k => some k | none => c.kvsKey,
     kvsSeekKey := none },
   next.2)

/-- KvsCursor::seek: native seek, record the landed key in _kvs_seek_key. -/
def seekOp (c : Cursor) (k : Key) : Cursor × Option Key :=
  let next := nseek c.nc k
  ({ nc := next.1, kvsKey := c.kvsKey, kvsSeekKey := next.2 }, next.2)

/-- KvsCursor::update (lines 135-165): destroy and recreate the native
cursor over the (possibly changed) scope newKeys, seek back to
_kvs_seek_key if set else _kvs_key, and — when the last operation was a
plain read and the seek landed exactly on that previously read key —
perform one extra internal _read_kvs.  The returned Bool reports whether
that extra internal read happened. -/
def update (c : Cursor) (newKeys : List Key) : Cursor × Bool :=
  let lastOpWasRead := c.kvsSeekKey.isNone && c.kvsKey.isSome
  let seekKey : Key :=
    match c.kvsSeekKey with
    | some k => k
    | none => match c.kvsKey with | some k => k | none => []
  let fresh : NativeCursor := { keys := newKeys, pos := 0 }
  let afterSeek := nseek fresh seekKey
  let c1 : Cursor := { nc := afterSeek.1, kvsKey := c.kvsKey, kvsSeekKey := afterSeek.2 }
  if lastOpWasRead ∧ afterSeek.2 = some seekKey then
    ((readKvs c1).1, true)
  else
    (c1, false)

/-! ## Oplog background thread registry (hse_record_store_mongod.cpp) -/

/-- Fixed environment of KVDBEngine::initOplogStoreThread: whether a
namespace string is an oplog namespace (NamespaceString::oplog) and whether
the process runs in repair mode (storageGlobalParams.repair). -/
structure OplogEnv where
  isOplog : String → Bool
  repair : Bool

/-- The process-wide registry: _backgroundThreadNamespaces, plus the list
of namespaces for which a KVDBOplogStoreThread was actually started (each
go() call appends one entry). -/
structure OplogThreadState where
  namespaces : List String
  started : List String
deriving DecidableEq, Repr

/-- The empty registry at process start. -/
def oplogInit : OplogThreadState := { namespaces := [], started := [] }

/-- KVDBEngine::initOplogStoreThread (lines 137-158): reject non-oplog
namespaces and repair mode with false; otherwise, under the registry mutex,
start a thread and register the namespace unless already registered;
return true either way. -/
def initOplogStoreThread (env : OplogEnv) (st : OplogThreadState) (ns : String) :
    Bool × OplogThreadState :=
  if env.isOplog ns = false then
    (false, st)
  else if env.repair then
    (false, st)
  else if ns ∈ st.namespaces then
    (true, st)
  else
    (true, { namespaces := ns :: st.namespaces, started := ns :: st.started })

/-- A serialized sequence of initOplogStoreThread calls. -/
def runOplogCalls (env : OplogEnv) (st : OplogThreadState) :
    List String → OplogThreadState
  | [] => st
  | ns :: rest => runOplogCalls env (initOplogStoreThread env st ns).2 rest

/-! ## Helper lemmas -/

theorem usub_eq_sub {a c : Nat} (h : c ≤ a) (ha : a < U64) : usub a c = a - c := by
  have hU : U64 = 18446744073709551616 := by norm_num [U64]
  unfold usub
  rw [hU]
  rw [hU] at ha
  omega

theorem add_mod_U64_eq {a : Nat} (h : a < U64) : a % U64 = a := Nat.mod_eq_of_lt h

theorem memWrite_length {dst src : Bytes} {off : Nat} (h : off + src.length ≤ dst.length) :
    (memWrite dst off src).length = dst.length := by
  simp [memWrite]
  omega

theorem memWrite_take {dst src : Bytes} {off : Nat} (h : off ≤ dst.length) :
    (memWrite dst off src).take off = dst.take off := by
  unfold memWrite
  rw [List.append_assoc, List.take_append_of_le_length (by simp; omega)]
  simp

theorem memLt_irrefl (a : Key) : memLt a a = false := by
  induction a with
  | nil => rfl
  | cons x xs ih => simp [memLt, ih]

theorem memLt_conn : ∀ (a b : Key), memLt a b = false → memLt b a = false → a = b := by
  intro a
  induction a with
  | nil =>
    intro b h1 _
    cases b with
    | nil => rfl
    | cons y ys => simp [memLt] at h1
  | cons x xs ih =>
    intro b h1 h2
    cases b with
    | nil => simp [memLt] at h2
    | cons y ys =>
      by_cases hxy : x < y
      · simp [memLt, hxy] at h1
      · by_cases hyx : y < x
        · simp [memLt, hyx, hxy] at h2
        · have hx : x = y := by omega
          subst hx
          simp [memLt] at h1 h2
          rw [ih ys h1 h2]

theorem memLt_trans : ∀ (a b c : Key), memLt a b = true → memLt b c = true → memLt a c = true := by
  intro a
  induction a with
  | nil =>
    intro b c hab hbc
    cases b with
    | nil => simp [memLt] at hab
    | cons y ys =>
      cases c with
      | nil => simp [memLt] at hbc
      | cons z zs => simp [memLt]
  | cons x xs ih =>
    intro b c hab hbc
    cases b with
    | nil => simp [memLt] at hab
    | cons y ys =>
      cases c with
      | nil => simp [memLt] at hbc
      | cons z zs =>
        by_cases hxy : x < y
        · by_cases hyz : y < z
          · simp [memLt, show x < z by omega]
          · simp [memLt, hyz] at hbc
            have hz : y = z := by omega
            subst hz
            simp [memLt, hxy]
        · simp [memLt, hxy] at hab
          have hx : x = y := by omega
          subst hx
          by_cases hxz : x < z
          · simp [memLt, hxz]
          · simp [memLt, hxz] at hbc ⊢
            refine ⟨hbc.1, ?_⟩
            exact ih ys zs hab.2 hbc.2

theorem memLt_of_ne_of_not_lt {a b : Key} (hne : a ≠ b) (h : memLt a b = false) :
    memLt b a = true := by
  by_contra hc
  exact hne (memLt_conn a b h (by revert hc; cases memLt b a <;> simp))

theorem sortedKeys_tail {a : Key} {t : List Key} (h : sortedKeys (a :: t) = true) :
    sortedKeys t = true := by
  cases t with
  | nil => rfl
  | cons b t2 =>
    simp [sortedKeys] at h
    exact h.2

theorem sorted_head_lt {t : List Key} :
    ∀ {x : Key}, sortedKeys (x :: t) = true → ∀ y ∈ t, memLt x y = true := by
  induction t with
  | nil => simp
  | cons b t2 ih =>
    intro x h y hy
    simp [sortedKeys] at h
    rcases List.mem_cons.mp hy with hyb | hyt
    · subst hyb; exact h.1
    · exact memLt_trans x b y h.1 (ih h.2 y hyt)

theorem seekIdx_landed_ge :
    ∀ (s : List Key) (k L : Key), s[seekIdx s k]? = some L → memLt L k = false := by
  intro s
  induction s with
  | nil => intro k L h; simp [seekIdx] at h
  | cons x t ih =>
    intro k L h
    by_cases hx : memLt x k = true
    · simp [seekIdx, hx] at h
      exact ih k L h
    · simp [seekIdx, hx] at h
      subst h
      simpa using hx

theorem seekIdx_mem :
    ∀ (s : List Key) (k : Key), sortedKeys s = true → k ∈ s → s[seekIdx s k]? = some k := by
  intro s
  induction s with
  | nil => intro k _ hm; simp at hm
  | cons x t ih =>
    intro k hs hm
    by_cases hx : memLt x k = true
    · have hk : k ∈ t := by
        rcases List.mem_cons.mp hm with hkx | hkt
        · subst hkx; rw [memLt_irrefl] at hx; exact absurd hx (by simp)
        · exact hkt
      simp [seekIdx, hx]
      exact ih k (sortedKeys_tail hs) hk
    · have hk : k = x := by
        rcases List.mem_cons.mp hm with hkx | hkt
        · exact hkx
        · exact absurd (sorted_head_lt hs k hkt) hx
      subst hk
      simp [seekIdx, hx]

theorem sorted_get_lt :
    ∀ (s : List Key) (i : Nat) (a b : Key), sortedKeys s = true →
      s[i]? = some a → s[i + 1]? = some b → memLt a b = true := by
  intro s
  induction s with
  | nil => intro i a b _ ha _; simp at ha
  | cons x t ih =>
    intro i a b hs ha hb
    cases i with
    | zero =>
      simp at ha
      subst ha
      cases t with
      | nil => simp at hb
      | cons y t2 =>
        simp at hb
        subst hb
        simp [sortedKeys] at hs
        exact hs.1
    | succ j =>
      simp at ha hb
      exact ih j a b (sortedKeys_tail hs) ha hb

theorem createLoop_replicate (n : Nat) :
    ∀ (k : Nat) (rest : List CreateResp),
      createLoop (List.replicate n .eagain ++ rest) k =
        ((createLoop rest (k + n)).1, eagainEvs k n ++ (createLoop rest (k + n)).2) := by
  induction n with
  | zero => intro k rest; simp [eagainEvs]
  | succ m ih =>
    intro k rest
    rw [List.replicate_succ]
    simp only [List.cons_append, createLoop, eagainEvs, List.append_eq]
    rw [ih (k + 1) rest]
    have hk : k + 1 + m = k + (m + 1) := by omega
    rw [hk]
    simp [List.append_assoc]

theorem sleepsOf_append (a b : List CreateEv) :
    sleepsOf (a ++ b) = sleepsOf a ++ sleepsOf b := by
  simp [sleepsOf]

theorem warnsOf_append (a b : List CreateEv) :
    warnsOf (a ++ b) = warnsOf a ++ warnsOf b := by
  simp [warnsOf]

theorem sleepsOf_eagainEvs : ∀ (n k : Nat),
    sleepsOf (eagainEvs k n) = (List.range n).map (fun i => fibSleep (k + i)) := by
  intro n
  induction n with
  | zero => intro k; simp [eagainEvs, sleepsOf]
  | succ m ih =>
    intro k
    rw [List.range_succ_eq_map]
    simp only [eagainEvs, sleepsOf_append]
    rw [ih (k + 1)]
    have h1 : sleepsOf (if warnAt k then [CreateEv.warn k] else []) = [] := by
      split <;> simp [sleepsOf]
    rw [h1]
    simp only [List.map_cons, List.map_map, List.nil_append]
    have h2 : sleepsOf [CreateEv.sleep (fibSleep k)] = [fibSleep k] := by simp [sleepsOf]
    rw [h2]
    have h3 : k + 0 = k := by omega
    rw [h3]
    have hmap : (List.range m).map ((fun i => fibSleep (k + i)) ∘ Nat.succ) =
        (List.range m).map (fun i => fibSleep (k + 1 + i)) := by
      apply List.map_congr_left
      intro i _
      simp only [Function.comp]
      congr 1
      omega
    rw [hmap]
    simp

theorem warnsOf_eagainEvs : ∀ (n k : Nat),
    warnsOf (eagainEvs k n) = ((List.range n).map (k + ·)).filter (fun j => warnAt j) := by
  intro n
  induction n with
  | zero => intro k; simp [eagainEvs, warnsOf]
  | succ m ih =>
    intro k
    rw [List.range_succ_eq_map]
    simp only [eagainEvs, warnsOf_append]
    rw [ih (k + 1)]
    simp only [List.map_cons, List.map_map, List.filter_cons]
    have h2 : warnsOf [CreateEv.sleep (fibSleep k)] = [] := by simp [warnsOf]
    rw [h2]
    have h3 : k + 0 = k := by omega
    rw [h3]
    have hmap : (List.range m).map ((fun i => k + i) ∘ Nat.succ) =
        (List.range m).map (fun i => k + 1 + i) := by
      apply List.map_congr_left
      intro i _
      simp only [Function.comp]
      omega
    rw [hmap]
    by_cases hw : warnAt k
    · simp [hw, warnsOf]
    · simp [hw, warnsOf]

theorem createLoop_threw_has_err :
    ∀ (resps : List CreateResp) (k : Nat),
      (createLoop resps k).1 = CreateOutcome.threwNonEagain → CreateResp.err ∈ resps := by
  intro resps
  induction resps with
  | nil => intro k h; simp [createLoop] at h
  | cons r rest ih =>
    intro k h
    cases r with
    | ok => simp [createLoop] at h
    | err => simp
    | eagain =>
      simp [createLoop] at h
      exact List.mem_cons_of_mem _ (ih (k + 1) h)

theorem waitReturnIdx_spec (w : Int) :
    ∀ (obs : List (Int × Bool)) (i : Nat),
      waitReturnIdx w obs = some i →
        (∃ p, obs[i]? = some p ∧ syncWaitDone w p.1 p.2 = true) ∧
        (∀ j, j < i → ∀ q, obs[j]? = some q → syncWaitDone w q.1 q.2 = false) := by
  intro obs
  induction obs with
  | nil => intro i h; simp [waitReturnIdx] at h
  | cons p rest ih =>
    intro i h
    by_cases hd : syncWaitDone w p.1 p.2 = true
    · have : waitReturnIdx w (p :: rest) = some 0 := by
        simp [waitReturnIdx, hd]
      rw [this] at h
      have hi : i = 0 := by
        have := Option.some.inj h
        omega
      subst hi
      refine ⟨⟨p, by simp, hd⟩, ?_⟩
      intro j hj
      omega
    · have hd2 : syncWaitDone w p.1 p.2 = false := by
        revert hd; cases syncWaitDone w p.1 p.2 <;> simp
      simp [waitReturnIdx, hd2] at h
      rcases h with ⟨i2, hrec, hi⟩
      rcases ih i2 hrec with ⟨⟨q, hq, hq2⟩, hbefore⟩
      subst hi
      refine ⟨⟨q, by simpa using hq, hq2⟩, ?_⟩
      intro j hj q2 hq3
      cases j with
      | zero =>
        simp at hq3
        subst hq3
        exact hd2
      | succ j2 =>
        simp at hq3
        exact hbefore j2 (by omega) q2 hq3

theorem syncRun_numSyncs (st : DMState) (b : Int) (fs : Status) :
    (syncRun st b fs).1.numSyncs = st.numSyncs ∨
    (syncRun st b fs).1.numSyncs = st.numSyncs + 1 := by
  unfold syncRun
  by_cases h1 : st.durable = false
  · simp [h1]
  · by_cases h2 : fs.ok = false
    · simp [h1, h2]
    · simp [h1, h2]

theorem syncRun_ok_state (st : DMState) (b : Int) (hd : st.durable = true) :
    (syncRun st b ⟨0⟩).1 = { st with numSyncs := st.numSyncs + 1 } := by
  unfold syncRun
  simp [hd, Status.ok]

/-! ## Claim theorems -/

/-- C1: in sync() with durability on and a visibility collaborator
registered, the commit boundary is read from getCommitBoundary before the
kvdb_sync flush, and durableCallback receives exactly that value, invoked
only after the flush call — the event trace is literally read, flush,
publish, in that order; a failed flush aborts before any durableCallback. -/
theorem c1_sync_boundary_order (st : DMState) (b : Int) (fs : Status)
    (hd : st.durable = true) (hv : st.visSet = true) :
    (fs.ok = true →
      (syncRun st b fs).2.1 =
        [.getToken, .readBoundary b, .flushCall, .durableCallback b,
         .bumpSyncs, .notifyWaiters, .onDurable]) ∧
    (∀ x, SyncEv.durableCallback x ∈ (syncRun st b fs).2.1 → x = b) ∧
    (fs.ok = false → ∀ x, SyncEv.durableCallback x ∉ (syncRun st b fs).2.1) := by
  refine ⟨?_, ?_, ?_⟩
  · intro hok
    simp [syncRun, hd, hv, hok]
  · intro x hx
    by_cases hok : fs.ok = true
    · simp [syncRun, hd, hv, hok] at hx
      exact hx
    · have hok2 : fs.ok = false := by revert hok; cases fs.ok <;> simp
      simp [syncRun, hd, hv, hok2] at hx
  · intro hok x
    simp [syncRun, hd, hv, hok]

theorem c1_sync_boundary_order_witness :
    (syncRun ⟨0, true, false, true⟩ 5 ⟨0⟩).2.1 =
      [.getToken, .readBoundary 5, .flushCall, .durableCallback 5,
       .bumpSyncs, .notifyWaiters, .onDurable] :=
  (c1_sync_boundary_order ⟨0, true, false, true⟩ 5 ⟨0⟩ rfl rfl).1 rfl

/-- C2 counterexample: the claim says a waiter never remains blocked once
the counter exceeds the value current at entry.  With the counter at 0 on
entry, a wakeup observing counter 1 (which exceeds 0, no shutdown) does NOT
release the waiter: line 136 records waitFor = _numSyncs + 1 and line 138
waits for _numSyncs > waitFor, i.e. for the counter to reach entry + 2. -/
theorem c2_wait_counterexample :
    (0 : Int) < 1 ∧ syncWaitDone (waitFor 0) 1 false = false := by decide

/-- C2 amended: waitUntilDurable records entry value + 1 as waitFor and
returns exactly at the first condition-variable observation where the
counter strictly exceeds entry value + 1 (so at least entry + 2) or
shutdown is flagged. -/
theorem c2_wait_amended :
    (∀ e n : Int, ∀ sd : Bool,
      syncWaitDone (waitFor e) n sd = true ↔ (e + 1 < n ∨ sd = true)) ∧
    (∀ e : Int, ∀ obs : List (Int × Bool), ∀ i : Nat,
      waitReturnIdx (waitFor e) obs = some i →
      ∀ p, obs[i]? = some p → (e + 1 < p.1 ∨ p.2 = true)) ∧
    (∀ e : Int, ∀ obs : List (Int × Bool), ∀ i j : Nat,
      waitReturnIdx (waitFor e) obs = some i → j < i →
      ∀ q, obs[j]? = some q → ¬(e + 1 < q.1 ∨ q.2 = true)) := by
  have hiff : ∀ e n : Int, ∀ sd : Bool,
      syncWaitDone (waitFor e) n sd = true ↔ (e + 1 < n ∨ sd = true) := by
    intro e n sd
    simp [syncWaitDone, waitFor]
  refine ⟨hiff, ?_, ?_⟩
  · intro e obs i h p hp
    rcases waitReturnIdx_spec (waitFor e) obs i h with ⟨⟨p2, hp2, hdone⟩, _⟩
    rw [hp] at hp2
    have hpp : p2 = p := (Option.some.inj hp2).symm
    rw [hpp] at hdone
    exact (hiff e p.1 p.2).mp hdone
  · intro e obs i j h hj q hq hcon
    rcases waitReturnIdx_spec (waitFor e) obs i h with ⟨_, hbefore⟩
    have hfalse := hbefore j hj q hq
    have htrue := (hiff e q.1 q.2).mpr hcon
    rw [hfalse] at htrue
    exact Bool.false_ne_true htrue

theorem c2_wait_amended_witness :
    ((0 : Int) + 1 < (2 : Int) ∨ false = true) ∧
    ¬((0 : Int) + 1 < (1 : Int) ∨ false = true) :=
  ⟨c2_wait_amended.2.1 0 [(1, false), (2, false)] 1 (by decide)
     ((2 : Int), false) rfl,
   c2_wait_amended.2.2 0 [(1, false), (2, false)] 1 0 (by decide) (by omega)
     ((1 : Int), false) rfl⟩

/-- C3: the sync counter starts at 0, no DurabilityManager operation ever
lowers it, and each completed sync() with durability enabled adds exactly
one — after N serialized completed syncs the counter is its pre-call value
plus N. -/
theorem c3_numSyncs_monotone :
    (∀ d, (dmInit d).numSyncs = 0) ∧
    (∀ st op, st.numSyncs ≤ (dmStep st op).numSyncs) ∧
    (∀ bs : List Int, ∀ st, st.durable = true →
      (bs.foldl (fun s b => dmStep s (.sync b ⟨0⟩)) st).numSyncs =
        st.numSyncs + bs.length) := by
  refine ⟨fun d => rfl, ?_, ?_⟩
  · intro st op
    cases op with
    | sync b fs =>
      rcases syncRun_numSyncs st b fs with h | h <;>
        simp only [dmStep] <;> omega
    | waitUntilDurable => exact le_refl _
    | setJournalListener => exact le_refl _
    | setOplogVisibilityManager s => exact le_refl _
    | prepareForShutdown b fs =>
      rcases syncRun_numSyncs st b fs with h | h <;>
        simp only [dmStep] <;> omega
  · intro bs
    induction bs with
    | nil => intro st _; simp
    | cons b rest ih =>
      intro st hd
      simp only [List.foldl_cons]
      have hstep : dmStep st (.sync b ⟨0⟩) = { st with numSyncs := st.numSyncs + 1 } := by
        simp only [dmStep]
        exact syncRun_ok_state st b hd
      rw [hstep]
      rw [ih { st with numSyncs := st.numSyncs + 1 } hd]
      simp
      omega

theorem c3_numSyncs_monotone_witness :
    ((([5, 6] : List Int).foldl (fun s b => dmStep s (.sync b ⟨0⟩))
        (dmInit true)).numSyncs) = (dmInit true).numSyncs + ([5, 6] : List Int).length :=
  c3_numSyncs_monotone.2.2 [5, 6] (dmInit true) rfl

/-- C4: a failed kvdb_sync inside sync() aborts the process through
invariantHseSt (state unchanged, nothing published, no error returned to
the caller — aborts happen exactly on flush failure with durability on),
and the JournalFlusher worker swallows exactly the ShutdownInProgress
UserException from sync(), treating any other exception as fatal. -/
theorem c4_flush_failure_fatal :
    (∀ st : DMState, ∀ b : Int, ∀ fs : Status, st.durable = true → fs.ok = false →
      (syncRun st b fs).2.2 = SyncExit.aborted ∧ (syncRun st b fs).1 = st) ∧
    (∀ st : DMState, ∀ b : Int, ∀ fs : Status,
      (syncRun st b fs).2.2 = SyncExit.aborted → st.durable = true ∧ fs.ok = false) ∧
    flusherOnException (.userErr shutdownInProgressCode) = .continueRun ∧
    (∀ c, c ≠ shutdownInProgressCode → flusherOnException (.userErr c) = .fatalAbort) ∧
    flusherOnException .otherErr = .fatalAbort := by
  refine ⟨?_, ?_, rfl, ?_, rfl⟩
  · intro st b fs hd hok
    unfold syncRun
    simp [hd, hok]
  · intro st b fs h
    unfold syncRun at h
    by_cases h1 : st.durable = false
    · simp [h1] at h
    · by_cases h2 : fs.ok = false
      · refine ⟨?_, h2⟩
        revert h1
        cases st.durable <;> simp
      · simp [h1, h2] at h
  · intro c hc
    simp [flusherOnException, hc]

theorem c4_flush_failure_fatal_witness :
    (syncRun ⟨3, true, false, true⟩ 7 ⟨5⟩).2.2 = SyncExit.aborted ∧
    (syncRun ⟨3, true, false, true⟩ 7 ⟨5⟩).1 = ⟨3, true, false, true⟩ ∧
    flusherOnException (.userErr 2) = .fatalAbort :=
  ⟨(c4_flush_failure_fatal.1 ⟨3, true, false, true⟩ 7 ⟨5⟩ rfl rfl).1,
   (c4_flush_failure_fatal.1 ⟨3, true, false, true⟩ 7 ⟨5⟩ rfl rfl).2,
   c4_flush_failure_fatal.2.2.2.1 2 (by decide)⟩

theorem runOplogCalls_count (env : OplogEnv) :
    ∀ (calls : List String) (st : OplogThreadState),
      (∀ ns, (ns ∈ st.started → ns ∈ st.namespaces) ∧ st.started.count ns ≤ 1) →
      ∀ ns, (runOplogCalls env st calls).started.count ns ≤ 1 := by
  intro calls
  induction calls with
  | nil => intro st hinv ns; exact (hinv ns).2
  | cons c rest ih =>
    intro st hinv ns
    simp only [runOplogCalls]
    apply ih
    intro ns2
    unfold initOplogStoreThread
    by_cases h1 : env.isOplog c = false
    · simp [h1]; exact hinv ns2
    · by_cases h2 : env.repair = true
      · simp [h1, h2]; exact hinv ns2
      · by_cases h3 : c ∈ st.namespaces
        · simp [h1, h2, h3]; exact hinv ns2
        · simp only [h1, h2, h3]
          simp
          have hcns : c ∉ st.started := by
            intro hc
            exact h3 ((hinv c).1 hc)
          constructor
          · intro hmem
            rcases hmem with he | ht
            · exact Or.inl he
            · exact Or.inr ((hinv ns2).1 ht)
          · by_cases he : ns2 = c
            · subst he
              rw [List.count_cons_self]
              have : st.started.count ns2 = 0 := List.count_eq_zero.mpr hcns
              omega
            · rw [List.count_cons_of_ne he]
              exact (hinv ns2).2

/-- C10: initOplogStoreThread returns false exactly for non-oplog
namespaces or repair mode; a call for an already-registered namespace
changes nothing and still returns true; and across any serialized sequence
of calls from the initial empty registry, at most one background thread is
ever started per namespace. -/
theorem c10_oplog_thread_unique (env : OplogEnv) :
    (∀ st ns, (initOplogStoreThread env st ns).1 = false ↔
      (env.isOplog ns = false ∨ env.repair = true)) ∧
    (∀ st ns, env.isOplog ns = true → env.repair = false → ns ∈ st.namespaces →
      initOplogStoreThread env st ns = (true, st)) ∧
    (∀ calls ns, (runOplogCalls env oplogInit calls).started.count ns ≤ 1) := by
  refine ⟨?_, ?_, ?_⟩
  · intro st ns
    unfold initOplogStoreThread
    by_cases h1 : env.isOplog ns = false
    · simp [h1]
    · by_cases h2 : env.repair = true
      · simp [h1, h2]
      · by_cases h3 : ns ∈ st.namespaces
        · simp [h1, h2, h3]
        · simp [h1, h2, h3]
  · intro st ns ho hr hm
    unfold initOplogStoreThread
    simp [ho, hr, hm]
  · intro calls ns
    apply runOplogCalls_count env calls oplogInit
    intro ns2
    refine ⟨?_, ?_⟩
    · intro h; simp [oplogInit] at h
    · simp [oplogInit]

theorem c10_oplog_thread_unique_witness :
    initOplogStoreThread ⟨fun s => s == "local.oplog.rs", false⟩
      ⟨["local.oplog.rs"], ["local.oplog.rs"]⟩ "local.oplog.rs" =
      (true, ⟨["local.oplog.rs"], ["local.oplog.rs"]⟩) :=
  (c10_oplog_thread_unique ⟨fun s => s == "local.oplog.rs", false⟩).2.1
    ⟨["local.oplog.rs"], ["local.oplog.rs"]⟩ "local.oplog.rs"
    (by decide) rfl (by simp)

/-- C8: cursor creation, on each EAGAIN from hse_kvs_cursor_create, sleeps
and retries: the k-th retry sleeps 1,2,3,5,8,13 ms for k = 0..5 and 13 ms
for every k ≥ 6; the warning fires exactly on positive multiples of 20 of
the retries counter; n EAGAINs followed by success create the cursor after
exactly those n sleeps; a non-EAGAIN failure throws KVDBException; and a
throw can only be caused by a non-EAGAIN response, so a transient EAGAIN is
never surfaced to the caller. -/
theorem c8_create_retry_backoff (n : Nat) (last : CreateResp) :
    (∀ k, k < 6 → fibSleep k = [1, 2, 3, 5, 8, 13].getD k 0) ∧
    (∀ k, 6 ≤ k → fibSleep k = 13) ∧
    (∀ k, warnAt k = true ↔ (0 < k ∧ k % 20 = 0)) ∧
    (last ≠ .eagain →
      sleepsOf (createLoop (List.replicate n .eagain ++ [last]) 0).2 =
        (List.range n).map fibSleep) ∧
    (warnsOf (createLoop (List.replicate n .eagain ++ [last]) 0).2 =
      (List.range (n + 1)).filter (fun j => warnAt j)) ∧
    (last = .ok → (createLoop (List.replicate n .eagain ++ [last]) 0).1 = .created) ∧
    (last = .err →
      (createLoop (List.replicate n .eagain ++ [last]) 0).1 = .threwNonEagain) ∧
    (∀ resps : List CreateResp, ∀ k : Nat,
      (createLoop resps k).1 = .threwNonEagain → .err ∈ resps) := by
  refine ⟨?_, ?_, ?_, ?_, ?_, ?_, ?_, createLoop_threw_has_err⟩
  · intro k hk
    simp [fibSleep, hk]
  · intro k hk
    have h6 : ¬ k < 6 := by omega
    simp [fibSleep, h6]
  · intro k
    simp [warnAt]
    omega
  · intro hlast
    rw [createLoop_replicate n 0 [last]]
    rw [sleepsOf_append, sleepsOf_eagainEvs n 0]
    have hsl : sleepsOf (createLoop [last] (0 + n)).2 = [] := by
      cases last with
      | eagain => exact absurd rfl hlast
      | ok =>
        simp only [createLoop]
        split <;> simp [sleepsOf]
      | err =>
        simp only [createLoop]
        split <;> simp [sleepsOf]
    rw [hsl, List.append_nil]
    apply List.map_congr_left
    intro i _
    simp
  · rw [createLoop_replicate n 0 [last]]
    rw [warnsOf_append, warnsOf_eagainEvs n 0]
    have hw : warnsOf (createLoop [last] (0 + n)).2 =
        List.filter (fun j => warnAt j) [n] := by
      have hz : 0 + n = n := by omega
      rw [hz]
      by_cases hcond : warnAt n = true
      · cases last <;>
          simp [createLoop, warnsOf, hcond, List.filter_singleton]
      · have hcond2 : warnAt n = false := by revert hcond; cases warnAt n <;> simp
        cases last <;>
          simp [createLoop, warnsOf, hcond2, List.filter_singleton]
    rw [hw]
    have hmap : (List.range n).map (fun i => 0 + i) = List.range n := by simp
    rw [hmap]
    rw [List.range_succ, List.filter_append]
  · intro h
    subst h
    rw [createLoop_replicate n 0 [.ok]]
    simp [createLoop]
  · intro h
    subst h
    rw [createLoop_replicate n 0 [.err]]
    simp [createLoop]

theorem c8_create_retry_backoff_witness :
    sleepsOf (createLoop (List.replicate 21 .eagain ++ [.ok]) 0).2 =
      (List.range 21).map fibSleep ∧
    warnsOf (createLoop (List.replicate 21 .eagain ++ [.ok]) 0).2 =
      (List.range (21 + 1)).filter (fun j => warnAt j) ∧
    (createLoop (List.replicate 21 .eagain ++ [.ok]) 0).1 = .created ∧
    fibSleep 3 = [1, 2, 3, 5, 8, 13].getD 3 0 ∧
    fibSleep 40 = 13 :=
  ⟨(c8_create_retry_backoff 21 .ok).2.2.2.1 (by decide),
   (c8_create_retry_backoff 21 .ok).2.2.2.2.1,
   (c8_create_retry_backoff 21 .ok).2.2.2.2.2.1 rfl,
   (c8_create_retry_backoff 21 .ok).1 3 (by decide),
   (c8_create_retry_backoff 21 .ok).2.1 40 (by decide)⟩

/-- C5: appending n bytes via KVDBData::copy succeeds iff n fits in the
remaining capacity (capacity − length); on success the length grows by
exactly n while the first length bytes, the capacity, the ownership tag,
the backing allocation identity and the allocation size are all unchanged
(the allocation is never grown); on failure the whole buffer is returned
unchanged together with the EMSGSIZE (CapacityExceeded) status. -/
theorem c5_append_capacity (b : KVDBData) (src : Bytes) (n : Nat)
    (hwf : b.wf) (hinv : b.lenInv) (hn : n < U64) :
    ((b.copy src n).1.ok = true ↔ n ≤ b.capacity - b.len) ∧
    (n ≤ b.capacity - b.len →
      (b.copy src n).2.len = b.len + n ∧
      (b.copy src n).2.contents.take b.len = b.contents.take b.len ∧
      (b.copy src n).2.capacity = b.capacity ∧
      (b.copy src n).2.owned = b.owned ∧
      (b.copy src n).2.ownedId = b.ownedId ∧
      (b.copy src n).2.contents.length = b.contents.length) ∧
    (¬ n ≤ b.capacity - b.len →
      (b.copy src n).1 = ⟨EMSGSIZE⟩ ∧ (b.copy src n).2 = b) := by
  rcases hwf with ⟨hclen, hcap, hlenU⟩
  by_cases ho : b.owned = true
  · have hc : b.capacity = b.allocLen := by simp [KVDBData.capacity, ho]
    have hcont : b.contents = b.ownedData := by simp [KVDBData.contents, ho]
    have hle : b.len ≤ b.allocLen := by rw [← hc]; exact hinv
    have husub : usub b.allocLen b.len = b.allocLen - b.len :=
      usub_eq_sub hle (by rw [← hc]; exact hcap)
    have hdlen : b.ownedData.length = b.allocLen := by
      rw [← hcont, hclen, hc]
    by_cases hcond : n ≤ b.allocLen - b.len
    · have hcopy : b.copy src n =
          (⟨0⟩, ({ b with ownedData := memWrite b.ownedData b.len (src.take n) }).adjustLen n) := by
        unfold KVDBData.copy
        rw [husub]
        simp [ho, hcond]
      have hln : b.len + n ≤ b.allocLen := by omega
      have hwlen : b.len + (src.take n).length ≤ b.ownedData.length := by
        rw [hdlen]
        have : (src.take n).length ≤ n := by simp
        omega
      refine ⟨?_, ?_, ?_⟩
      · rw [hcopy]
        simp [Status.ok, hc]
        omega
      · intro _
        rw [hcopy]
        refine ⟨?_, ?_, ?_, ?_, ?_, ?_⟩
        · simp [KVDBData.adjustLen]
          have : b.len + n < U64 := by
            have : b.allocLen < U64 := by rw [← hc]; exact hcap
            omega
          exact Nat.mod_eq_of_lt this
        · simp [KVDBData.adjustLen, KVDBData.contents, ho, hcont]
          exact memWrite_take (by omega)
        · simp [KVDBData.adjustLen, KVDBData.capacity, ho]
        · simp [KVDBData.adjustLen, ho]
        · simp [KVDBData.adjustLen]
        · simp [KVDBData.adjustLen, KVDBData.contents, ho, hcont]
          exact memWrite_length hwlen
      · intro hcon
        exact absurd (by rw [hc]; exact hcond) hcon
    · have hcopy : b.copy src n = (⟨EMSGSIZE⟩, b) := by
        unfold KVDBData.copy
        rw [husub]
        simp [ho, hcond]
      refine ⟨?_, ?_, ?_⟩
      · rw [hcopy]
        simp [Status.ok, EMSGSIZE, hc]
        omega
      · intro hcon
        exact absurd (by rw [hc] at hcon; exact hcon) hcond
      · intro _
        rw [hcopy]
        exact ⟨rfl, rfl⟩
  · have ho2 : b.owned = false := by revert ho; cases b.owned <;> simp
    have hc : b.capacity = b.bufLen := by simp [KVDBData.capacity, ho2]
    have hcont : b.contents = b.data := by simp [KVDBData.contents, ho2]
    have hle : b.len ≤ b.bufLen := by rw [← hc]; exact hinv
    have husub : usub b.bufLen b.len = b.bufLen - b.len :=
      usub_eq_sub hle (by rw [← hc]; exact hcap)
    have hdlen : b.data.length = b.bufLen := by
      rw [← hcont, hclen, hc]
    by_cases hcond : n ≤ b.bufLen - b.len
    · have hcopy : b.copy src n =
          (⟨0⟩, ({ b with data := memWrite b.data b.len (src.take n) }).adjustLen n) := by
        unfold KVDBData.copy
        rw [husub]
        simp [ho2, hcond]
      have hln : b.len + n ≤ b.bufLen := by omega
      have hwlen : b.len + (src.take n).length ≤ b.data.length := by
        rw [hdlen]
        have : (src.take n).length ≤ n := by simp
        omega
      refine ⟨?_, ?_, ?_⟩
      · rw [hcopy]
        simp [Status.ok, hc]
        omega
      · intro _
        rw [hcopy]
        refine ⟨?_, ?_, ?_, ?_, ?_, ?_⟩
        · simp [KVDBData.adjustLen]
          have : b.len + n < U64 := by
            have : b.bufLen < U64 := by rw [← hc]; exact hcap
            omega
          exact Nat.mod_eq_of_lt this
        · simp [KVDBData.adjustLen, KVDBData.contents, ho2, hcont]
          exact memWrite_take (by omega)
        · simp [KVDBData.adjustLen, KVDBData.capacity, ho2]
        · simp [KVDBData.adjustLen, ho2]
        · simp [KVDBData.adjustLen]
        · simp [KVDBData.adjustLen, KVDBData.contents, ho2, hcont]
          exact memWrite_length hwlen
      · intro hcon
        exact absurd (by rw [hc]; exact hcond) hcon
    · have hcopy : b.copy src n = (⟨EMSGSIZE⟩, b) := by
        unfold KVDBData.copy
        rw [husub]
        simp [ho2, hcond]
      refine ⟨?_, ?_, ?_⟩
      · rw [hcopy]
        simp [Status.ok, EMSGSIZE, hc]
        omega
      · intro hcon
        exact absurd (by rw [hc] at hcon; exact hcon) hcond
      · intro _
        rw [hcopy]
        exact ⟨rfl, rfl⟩

theorem c5_append_capacity_witness :
    ((KVDBData.copy
      { data := [], bufLen := 0, len := 2, owned := true, ownedData := [5, 6, 7, 8],
        ownedId := 3, allocLen := 4 } [9, 9] 2).2).len = 2 + 2 ∧
    ((KVDBData.copy
      { data := [], bufLen := 0, len := 2, owned := true, ownedData := [5, 6, 7, 8],
        ownedId := 3, allocLen := 4 } [9, 9] 2).2).contents.take 2 =
      ({ data := [], bufLen := 0, len := 2, owned := true, ownedData := [5, 6, 7, 8],
         ownedId := 3, allocLen := 4 } : KVDBData).contents.take 2 ∧
    ((KVDBData.copy
      { data := [], bufLen := 0, len := 2, owned := true, ownedData := [5, 6, 7, 8],
        ownedId := 3, allocLen := 4 } [9, 9] 2).2).capacity =
      ({ data := [], bufLen := 0, len := 2, owned := true, ownedData := [5, 6, 7, 8],
         ownedId := 3, allocLen := 4 } : KVDBData).capacity ∧
    ((KVDBData.copy
      { data := [], bufLen := 0, len := 2, owned := true, ownedData := [5, 6, 7, 8],
        ownedId := 3, allocLen := 4 } [9, 9] 2).2).owned =
      ({ data := [], bufLen := 0, len := 2, owned := true, ownedData := [5, 6, 7, 8],
         ownedId := 3, allocLen := 4 } : KVDBData).owned ∧
    ((KVDBData.copy
      { data := [], bufLen := 0, len := 2, owned := true, ownedData := [5, 6, 7, 8],
        ownedId := 3, allocLen := 4 } [9, 9] 2).2).ownedId =
      ({ data := [], bufLen := 0, len := 2, owned := true, ownedData := [5, 6, 7, 8],
         ownedId := 3, allocLen := 4 } : KVDBData).ownedId ∧
    ((KVDBData.copy
      { data := [], bufLen := 0, len := 2, owned := true, ownedData := [5, 6, 7, 8],
        ownedId := 3, allocLen := 4 } [9, 9] 2).2).contents.length =
      ({ data := [], bufLen := 0, len := 2, owned := true, ownedData := [5, 6, 7, 8],
         ownedId := 3, allocLen := 4 } : KVDBData).contents.length :=
  (c5_append_capacity
    { data := [], bufLen := 0, len := 2, owned := true, ownedData := [5, 6, 7, 8],
      ownedId := 3, allocLen := 4 } [9, 9] 2
    (by refine ⟨by decide, by decide, by decide⟩) (by decide) (by decide)).2.1
    (by decide)

/-- C6 counterexample: cloning an already-Owned buffer does not allocate
anything: KVDBData(*this) copies the shared_ptr and makeOwned is a no-op on
an owned buffer, so the clone shares the source's backing allocation (id 7
here) instead of using a fresh distinct allocation (id 8), so mutation
through either buffer is visible through the other. -/
theorem c6_clone_counterexample :
    (KVDBData.clone
      { data := [], bufLen := 0, len := 2, owned := true, ownedData := [1, 2],
        ownedId := 7, allocLen := 2 } 8).owned = true ∧
    (KVDBData.clone
      { data := [], bufLen := 0, len := 2, owned := true, ownedData := [1, 2],
        ownedId := 7, allocLen := 2 } 8).ownedId = 7 ∧
    ¬ (KVDBData.clone
      { data := [], bufLen := 0, len := 2, owned := true, ownedData := [1, 2],
        ownedId := 7, allocLen := 2 } 8).ownedId ≠
      ({ data := [], bufLen := 0, len := 2, owned := true, ownedData := [1, 2],
         ownedId := 7, allocLen := 2 } : KVDBData).ownedId := by decide

/-- C6 amended: clone always returns an Owned buffer whose valid bytes
equal the source's; when the source is Borrowed the backing is a brand-new
allocation (the fresh id), but when the source is already Owned the clone
is bit-for-bit the source itself, sharing its reference-counted allocation
(destruction of either is safe; the backing is not distinct). -/
theorem c6_clone_owned (b : KVDBData) (fid : Nat) (hlen : b.len ≤ b.data.length) :
    (b.clone fid).owned = true ∧
    (b.clone fid).validBytes = b.validBytes ∧
    (b.owned = false → (b.clone fid).ownedId = fid) ∧
    (b.owned = true → b.clone fid = b) := by
  by_cases ho : b.owned = true
  · simp [KVDBData.clone, KVDBData.makeOwned, ho]
  · have ho2 : b.owned = false := by revert ho; cases b.owned <;> simp
    have hclone : b.clone fid =
        { b with ownedData := b.data.take b.len ++ List.replicate (b.bufLen - b.len) 0,
                 allocLen := b.bufLen, ownedId := fid, owned := true } := by
      unfold KVDBData.clone KVDBData.makeOwned
      simp [ho2]
    refine ⟨by rw [hclone], ?_, fun _ => by rw [hclone], fun hcon => absurd hcon (by simp [ho2])⟩
    rw [hclone]
    simp [KVDBData.validBytes, KVDBData.contents, ho2]
    rw [List.take_append_of_le_length (by simp; omega)]
    simp [List.take_take]

theorem c6_clone_owned_witness :
    (KVDBData.clone { data := [10, 11, 12], bufLen := 3, len := 2 } 9).owned = true ∧
    (KVDBData.clone { data := [10, 11, 12], bufLen := 3, len := 2 } 9).validBytes =
      ({ data := [10, 11, 12], bufLen := 3, len := 2 } : KVDBData).validBytes :=
  ⟨(c6_clone_owned { data := [10, 11, 12], bufLen := 3, len := 2 } 9 (by decide)).1,
   (c6_clone_owned { data := [10, 11, 12], bufLen := 3, len := 2 } 9 (by decide)).2.1⟩

/-- C7 counterexample: the C-string constructor KVDBData(uint8_t*) sets
_len = strlen + 1 but never sets _bufLen, which stays 0; the buffer built
from the two-byte C string "a" has length 2 and capacity 0, so the claimed
invariant length ≤ capacity fails right at construction. -/
theorem c7_len_invariant_counterexample :
    ¬ (KVDBData.fromCString [97, 0]).lenInv := by decide

/-- C7 amended: every constructor except the C-string one establishes
length ≤ capacity; copy, makeOwned, createOwned, setReadBuf and destroy
preserve it; adjustLen preserves it only under the proviso that the
incremented length still fits the capacity (the source calls it only after
a bounds check, but the raw operation is unchecked). -/
theorem c7_len_invariant_amended :
    KVDBData.lenInv KVDBData.mkDefault ∧
    (∀ r l, (KVDBData.fromRegion r l).lenInv) ∧
    (∀ s, (KVDBData.fromString s).lenInv) ∧
    (∀ r l o fid, (KVDBData.fromMem r l o fid).lenInv) ∧
    (∀ b l fid, (KVDBData.createOwned b l fid).lenInv) ∧
    (∀ b buf l, (KVDBData.setReadBuf b buf l).lenInv) ∧
    (∀ b, (KVDBData.destroy b).lenInv) ∧
    (∀ b fid, b.lenInv → (KVDBData.makeOwned b fid).lenInv) ∧
    (∀ b src n, b.lenInv → b.capacity < U64 → ((KVDBData.copy b src n).2).lenInv) ∧
    (∀ b k, b.len + k ≤ b.capacity → b.capacity < U64 →
      (KVDBData.adjustLen b k).lenInv) := by
  refine ⟨?_, ?_, ?_, ?_, ?_, ?_, ?_, ?_, ?_, ?_⟩
  · simp [KVDBData.lenInv, KVDBData.mkDefault, KVDBData.capacity]
  · intro r l
    simp [KVDBData.lenInv, KVDBData.fromRegion, KVDBData.capacity]
  · intro s
    simp [KVDBData.lenInv, KVDBData.fromString, KVDBData.capacity]
  · intro r l o fid
    cases o <;>
      simp [KVDBData.lenInv, KVDBData.fromMem, KVDBData.mkDefault,
            KVDBData.createOwned, KVDBData.capacity]
  · intro b l fid
    simp [KVDBData.lenInv, KVDBData.createOwned, KVDBData.capacity]
  · intro b buf l
    simp [KVDBData.lenInv, KVDBData.setReadBuf, KVDBData.capacity]
  · intro b
    simp [KVDBData.lenInv, KVDBData.destroy, KVDBData.capacity]
  · intro b fid hinv
    by_cases ho : b.owned = true
    · simp [KVDBData.makeOwned, ho]
      exact hinv
    · have ho2 : b.owned = false := by revert ho; cases b.owned <;> simp
      have : b.capacity = b.bufLen := by simp [KVDBData.capacity, ho2]
      simp [KVDBData.makeOwned, ho2, KVDBData.lenInv, KVDBData.capacity]
      rw [← this]
      exact hinv
  · intro b src n hinv hcap
    by_cases ho : b.owned = true
    · have hc : b.capacity = b.allocLen := by simp [KVDBData.capacity, ho]
      have hle : b.len ≤ b.allocLen := by rw [← hc]; exact hinv
      have husub : usub b.allocLen b.len = b.allocLen - b.len :=
        usub_eq_sub hle (by rw [← hc]; exact hcap)
      by_cases hcond : n ≤ b.allocLen - b.len
      · have hcopy : b.copy src n =
            (⟨0⟩, ({ b with ownedData := memWrite b.ownedData b.len (src.take n) }).adjustLen n) := by
          unfold KVDBData.copy
          rw [husub]
          simp [ho, hcond]
        rw [hcopy]
        simp [KVDBData.adjustLen, KVDBData.lenInv, KVDBData.capacity, ho]
        have hlt : b.len + n < U64 := by
          have : b.allocLen < U64 := by rw [← hc]; exact hcap
          omega
        rw [Nat.mod_eq_of_lt hlt]
        omega
      · have hcopy : b.copy src n = (⟨EMSGSIZE⟩, b) := by
          unfold KVDBData.copy
          rw [husub]
          simp [ho, hcond]
        rw [hcopy]
        exact hinv
    · have ho2 : b.owned = false := by revert ho; cases b.owned <;> simp
      have hc : b.capacity = b.bufLen := by simp [KVDBData.capacity, ho2]
      have hle : b.len ≤ b.bufLen := by rw [← hc]; exact hinv
      have husub : usub b.bufLen b.len = b.bufLen - b.len :=
        usub_eq_sub hle (by rw [← hc]; exact hcap)
      by_cases hcond : n ≤ b.bufLen - b.len
      · have hcopy : b.copy src n =
            (⟨0⟩, ({ b with data := memWrite b.data b.len (src.take n) }).adjustLen n) := by
          unfold KVDBData.copy
          rw [husub]
          simp [ho2, hcond]
        rw [hcopy]
        simp [KVDBData.adjustLen, KVDBData.lenInv, KVDBData.capacity, ho2]
        have hlt : b.len + n < U64 := by
          have : b.bufLen < U64 := by rw [← hc]; exact hcap
          omega
        rw [Nat.mod_eq_of_lt hlt]
        omega
      · have hcopy : b.copy src n = (⟨EMSGSIZE⟩, b) := by
          unfold KVDBData.copy
          rw [husub]
          simp [ho2, hcond]
        rw [hcopy]
        exact hinv
  · intro b k hk hcap
    have hlt : b.len + k < U64 := by omega
    unfold KVDBData.capacity at hk
    simp only [KVDBData.adjustLen, KVDBData.lenInv, KVDBData.capacity]
    rw [Nat.mod_eq_of_lt hlt]
    exact hk

theorem c7_len_invariant_amended_witness :
    (KVDBData.makeOwned { data := [1, 2, 3], bufLen := 3, len := 2 } 4).lenInv ∧
    ((KVDBData.copy { data := [1, 2, 3], bufLen := 3, len := 2 } [9] 1).2).lenInv ∧
    (KVDBData.adjustLen { data := [1, 2, 3], bufLen := 3, len := 2 } 1).lenInv :=
  ⟨c7_len_invariant_amended.2.2.2.2.2.2.2.1
     { data := [1, 2, 3], bufLen := 3, len := 2 } 4 (by decide),
   c7_len_invariant_amended.2.2.2.2.2.2.2.2.1
     { data := [1, 2, 3], bufLen := 3, len := 2 } [9] 1 (by decide) (by decide),
   c7_len_invariant_amended.2.2.2.2.2.2.2.2.2
     { data := [1, 2, 3], bufLen := 3, len := 2 } 1 (by decide) (by decide)⟩

theorem mem_of_idx : ∀ (l : List Key) (i : Nat) (a : Key), l[i]? = some a → a ∈ l := by
  intro l
  induction l with
  | nil => intro i a h; simp at h
  | cons x t ih =>
    intro i a h
    cases i with
    | zero =>
      simp at h
      subst h
      exact List.mem_cons_self x t
    | succ j =>
      simp at h
      exact List.mem_cons_of_mem x (ih j a h)

theorem readKvs_snd (nc : NativeCursor) (kk sk : Option Key) :
    (readKvs ⟨nc, kk, sk⟩).2 = nc.keys[nc.pos]? := by
  unfold readKvs nread
  cases hc : nc.keys[nc.pos]? <;> simp [hc]

/-- C9: KvsCursor::update recreates the native cursor and seeks back to the
saved key; with the prior operation a plain read of key K, the extra
internal read happens exactly when the seek lands on K again (K still
present): then the next read() returns the successor of K, never K itself;
when K was deleted, no extra read happens, the next read() returns the key
the seek landed on — a key strictly greater than K — exactly once (the read
after it moves strictly past it); and the extra read can only ever happen
when the prior operation was a plain read. -/
theorem c9_update_resume (s : List Key) (K : Key) (c : Cursor)
    (hs : sortedKeys s = true) (hseek : c.kvsSeekKey = none)
    (hkey : c.kvsKey = some K) :
    ((update c s).2 = true ↔ s[seekIdx s K]? = some K) ∧
    (∀ c2 : Cursor, (update c2 s).2 = true →
      c2.kvsSeekKey = none ∧ c2.kvsKey ≠ none) ∧
    (K ∈ s →
      s[seekIdx s K]? = some K ∧
      (update c s).2 = true ∧
      (readKvs (update c s).1).2 = s[seekIdx s K + 1]? ∧
      (readKvs (update c s).1).2 ≠ some K) ∧
    (K ∉ s →
      (update c s).2 = false ∧
      (readKvs (update c s).1).2 = s[seekIdx s K]? ∧
      (∀ L, s[seekIdx s K]? = some L →
        memLt K L = true ∧ (readKvs (readKvs (update c s).1).1).2 ≠ some L)) := by
  have hsnd : (update c s).2 = true ↔ s[seekIdx s K]? = some K := by
    unfold update nseek
    rw [hseek, hkey]
    by_cases hc : s[seekIdx s K]? = some K
    · simp [hc]
    · simp [hc]
  refine ⟨hsnd, ?_, ?_, ?_⟩
  · intro c2 h
    by_cases hsk : c2.kvsSeekKey = none
    · by_cases hkk : c2.kvsKey = none
      · exfalso
        unfold update at h
        rw [hsk, hkk] at h
        simp at h
      · exact ⟨hsk, hkk⟩
    · exfalso
      rcases Option.ne_none_iff_exists.mp hsk with ⟨sk, hsk2⟩
      unfold update at h
      rw [← hsk2] at h
      simp at h
  · intro hm
    have hland : s[seekIdx s K]? = some K := seekIdx_mem s K hs hm
    have hupd : (update c s).1 =
        { nc := { keys := s, pos := seekIdx s K + 1 }, kvsKey := some K,
          kvsSeekKey := none } := by
      unfold update nseek readKvs nread
      rw [hseek, hkey]
      simp [hland]
    have hnext : (readKvs (update c s).1).2 = s[seekIdx s K + 1]? := by
      rw [hupd]
      exact readKvs_snd _ _ _
    refine ⟨hland, hsnd.mpr hland, hnext, ?_⟩
    rw [hnext]
    intro hcon
    have hlt := sorted_get_lt s (seekIdx s K) K K hs hland hcon
    rw [memLt_irrefl] at hlt
    exact Bool.false_ne_true hlt
  · intro hm
    have hne : ¬ s[seekIdx s K]? = some K := by
      intro hc
      exact hm (mem_of_idx s (seekIdx s K) K hc)
    have hupd : (update c s).1 =
        { nc := { keys := s, pos := seekIdx s K }, kvsKey := some K,
          kvsSeekKey := s[seekIdx s K]? } := by
      unfold update nseek
      rw [hseek, hkey]
      simp [hne]
    have hfst : (readKvs (update c s).1).2 = s[seekIdx s K]? := by
      rw [hupd]
      exact readKvs_snd _ _ _
    refine ⟨by rw [Bool.eq_false_iff]; intro hc; exact hne (hsnd.mp hc), hfst, ?_⟩
    intro L hL
    have hLmem : L ∈ s := mem_of_idx s (seekIdx s K) L hL
    have hLK : L ≠ K := by
      intro hc
      rw [hc] at hLmem
      exact hm hLmem
    have hgeL : memLt L K = false := seekIdx_landed_ge s K L hL
    refine ⟨memLt_of_ne_of_not_lt hLK hgeL, ?_⟩
    have hread1 : (readKvs (update c s).1).1 =
        { nc := { keys := s, pos := seekIdx s K + 1 }, kvsKey := some L,
          kvsSeekKey := none } := by
      rw [hupd]
      unfold readKvs nread
      simp [hL]
    rw [hread1, readKvs_snd]
    intro hcon
    have hlt := sorted_get_lt s (seekIdx s K) L L hs hL hcon
    rw [memLt_irrefl] at hlt
    exact Bool.false_ne_true hlt

theorem c9_update_resume_witness :
    ([[1], [2], [3], [4]] : List Key)[seekIdx [[1], [2], [3], [4]] [3]]? = some [3] ∧
    (update ⟨⟨[], 0⟩, some [3], none⟩ [[1], [2], [3], [4]]).2 = true ∧
    (readKvs (update ⟨⟨[], 0⟩, some [3], none⟩ [[1], [2], [3], [4]]).1).2 =
      ([[1], [2], [3], [4]] : List Key)[seekIdx [[1], [2], [3], [4]] [3] + 1]? ∧
    (readKvs (update ⟨⟨[], 0⟩, some [3], none⟩ [[1], [2], [3], [4]]).1).2 ≠
      some [3] :=
  (c9_update_resume [[1], [2], [3], [4]] [3] ⟨⟨[], 0⟩, some [3], none⟩
    (by decide) rfl rfl).2.2.1 (by decide)

end Hse
